import Mathlib

/-!
Shallow embedding of the quantizer (`magenta/lib/sequences_lib.py`) and the
attention-RNN melody encoder/decoder
(`magenta/models/attention_rnn/attention_rnn_encoder_decoder.py`).

Python floats are modelled as exact rationals (ℚ); Python ints as ℤ.
Python `int(x)` applied to a float truncates toward zero (`pyInt` below).
Python lists are Lean lists; negative Python indices are resolved against the
length of the list (`pyGet`, `pySet`); a Python dict keyed by track number is
an association list with unique keys in insertion order.
-/

/-- Python `int(x)` applied to a (rational-valued) float: truncation toward
zero, i.e. floor for nonnegative arguments and ceiling for negative ones. -/
def pyInt (q : ℚ) : ℤ := if 0 ≤ q then Int.floor q else Int.ceil q

/-- QUANTIZE_CUTOFF from sequences_lib.py. -/
def QUANTIZE_CUTOFF : ℚ := 1/2

/-- The quantize lambda in QuantizedSequence.from_note_sequence:
quantize = lambda x: int(x + (1 - QUANTIZE_CUTOFF)). -/
def quantize (x : ℚ) : ℤ := pyInt (x + (1 - QUANTIZE_CUTOFF))

/-- is_power_of_2 from sequences_lib.py: `x and not x & (x - 1)`
(truthiness of a Python int: nonzero). -/
def is_power_of_2 (x : ℤ) : Bool := decide (x ≠ 0) && decide (Int.land x (x - 1) = 0)

/-- The Note namedtuple of sequences_lib.py.  The field `end` is a Lean
keyword, rendered `end_`. -/
structure Note where
  pitch : ℤ
  velocity : ℤ
  start : ℤ
  end_ : ℤ
  instrument : ℤ
  program : ℤ
deriving DecidableEq

/-- The TimeSignature namedtuple of sequences_lib.py. -/
structure TimeSignature where
  numerator : ℤ
  denominator : ℤ
deriving DecidableEq

/-- The QuantizedSequence class state: tracks dict, bpm, time signature and
steps per beat. -/
structure QuantizedSequence where
  tracks : List (ℤ × List Note)
  bpm : ℚ
  time_signature : TimeSignature
  steps_per_beat : ℤ
deriving DecidableEq

/-- QuantizedSequence._reset: the default-empty state. -/
def reset : QuantizedSequence :=
  { tracks := [], bpm := 120, time_signature := ⟨4, 4⟩, steps_per_beat := 4 }

/-- A note record of the input NoteSequence proto (times in float seconds). -/
structure NSNote where
  pitch : ℤ
  velocity : ℤ
  start_time : ℚ
  end_time : ℚ
  instrument : ℤ
  program : ℤ
deriving DecidableEq

/-- A tempo record of the input NoteSequence proto. -/
structure Tempo where
  bpm : ℚ
deriving DecidableEq

/-- A time-signature record of the input NoteSequence proto. -/
structure TimeSignatureProto where
  numerator : ℤ
  denominator : ℤ
deriving DecidableEq

/-- The parts of the NoteSequence proto read by from_note_sequence. -/
structure NoteSequence where
  notes : List NSNote
  tempos : List Tempo
  time_signatures : List TimeSignatureProto
deriving DecidableEq

/-- The time signature adopted by from_note_sequence: the single supplied
record, or the default 4/4 left by _reset when none is supplied. -/
def adoptedTS (ns : NoteSequence) : TimeSignature :=
  match ns.time_signatures with
  | [] => ⟨4, 4⟩
  | t :: _ => ⟨t.numerator, t.denominator⟩

/-- The bpm adopted by from_note_sequence:
`note_sequence.tempos[0].bpm if note_sequence.tempos else 120.0`. -/
def adoptedBpm (ns : NoteSequence) : ℚ :=
  match ns.tempos with
  | [] => 120
  | t :: _ => t.bpm

/-- steps_per_second = steps_per_beat * self.bpm / 60.0. -/
def stepsPerSecond (ns : NoteSequence) (steps_per_beat : ℤ) : ℚ :=
  (steps_per_beat : ℚ) * adoptedBpm ns / 60

/-- Python dict lookup `self.tracks[k]` on the association-list model,
returning the empty list for a missing key. -/
def lookupT (tr : List (ℤ × List Note)) (k : ℤ) : List Note :=
  match tr.find? (fun p => p.1 == k) with
  | some p => p.2
  | none => []

/-- The dict update in the note loop: create the key with an empty list when
absent, then append the note to the keyed list. -/
def addNote (tr : List (ℤ × List Note)) (k : ℤ) (q : Note) : List (ℤ × List Note) :=
  if tr.any (fun p => p.1 == k) then
    tr.map (fun p => if p.1 == k then (p.1, p.2 ++ [q]) else p)
  else
    tr ++ [(k, [q])]

/-- The body of the note loop in from_note_sequence: quantize start and end
times, then widen a zero-length note by one step. -/
def mkQNote (sps : ℚ) (n : NSNote) : Note :=
  let start_step := quantize (n.start_time * sps)
  let end_step0 := quantize (n.end_time * sps)
  let end_step := if end_step0 = start_step then start_step + 1 else end_step0
  ⟨n.pitch, n.velocity, start_step, end_step, n.instrument, n.program⟩

/-- The three exception classes raised by from_note_sequence. -/
inductive QErr where
  | multipleTimeSignature
  | badTimeSignature
  | badNote
deriving DecidableEq

/-- The note loop of from_note_sequence.  The returned state is the receiver
state at the instant the loop finishes or an exception is raised. -/
def quantize_notes (sps : ℚ) : List NSNote → QuantizedSequence → QuantizedSequence × Option QErr
  | [], s => (s, none)
  | n :: rest, s =>
    let q := mkQNote sps n
    if q.start < 0 ∨ q.end_ < 0 then (s, some QErr.badNote)
    else quantize_notes sps rest { s with tracks := addNote s.tracks n.instrument q }

/-- QuantizedSequence.from_note_sequence.  The receiver `self` is discarded by
the initial `self._reset()`; the returned pair is the receiver state at return
or raise time, together with the raised exception (if any). -/
def from_note_sequence (self : QuantizedSequence) (ns : NoteSequence)
    (steps_per_beat : ℤ) : QuantizedSequence × Option QErr :=
  let _ := self
  let s0 : QuantizedSequence := { reset with steps_per_beat := steps_per_beat }
  if 1 < ns.time_signatures.length then (s0, some QErr.multipleTimeSignature)
  else
    let s1 : QuantizedSequence := { s0 with time_signature := adoptedTS ns }
    if is_power_of_2 s1.time_signature.denominator then
      let s2 : QuantizedSequence := { s1 with bpm := adoptedBpm ns }
      quantize_notes (stepsPerSecond ns steps_per_beat) ns.notes s2
    else (s1, some QErr.badTimeSignature)

/-- QuantizedSequence.__eq__: iterates over the tracks of the left receiver,
requiring the key in the right operand and Python set-equality of the two
note lists, then compares bpm, time signature and steps per beat. -/
def qs_eq (a b : QuantizedSequence) : Bool :=
  (a.tracks.all fun p =>
    match b.tracks.find? (fun q => q.1 == p.1) with
    | none => false
    | some q => (p.2.all fun n => q.2.any fun n2 => n2 == n)
        && (q.2.all fun n => p.2.any fun n2 => n2 == n))
  && (a.bpm == b.bpm) && (a.time_signature == b.time_signature)
  && (a.steps_per_beat == b.steps_per_beat)

/-- Modelled from the spec: melodies_lib.NO_EVENT, a reserved sentinel code
(melodies_lib is not under src/); a negative code distinct from NOTE_OFF and
from every MIDI pitch. -/
def NO_EVENT : ℤ := -2

/-- Modelled from the spec: melodies_lib.NOTE_OFF, the other reserved sentinel
code (melodies_lib is not under src/). -/
def NOTE_OFF : ℤ := -1

/-- MIN_NOTE from attention_rnn_encoder_decoder.py (inclusive). -/
def MIN_NOTE : ℤ := 48

/-- MAX_NOTE from attention_rnn_encoder_decoder.py (exclusive). -/
def MAX_NOTE : ℤ := 84

/-- note_range = max_note - min_note (= 36). -/
def note_range : ℤ := MAX_NOTE - MIN_NOTE

/-- STEPS_PER_BAR from attention_rnn_encoder_decoder.py. -/
def STEPS_PER_BAR : ℤ := 16

/-- Modelled from the spec: melodies_lib.NOTES_PER_OCTAVE (12 major keys). -/
def NOTES_PER_OCTAVE : ℤ := 12

/-- NUM_SPECIAL_INPUTS = 14 + NOTES_PER_OCTAVE * 2. -/
def NUM_SPECIAL_INPUTS : ℤ := 14 + NOTES_PER_OCTAVE * 2

/-- input_size = note_range + NUM_SPECIAL_INPUTS (= 74). -/
def input_size : ℤ := note_range + NUM_SPECIAL_INPUTS

/-- Python read `l[i]` with negative indices counting from the end.  The
source only reads indices it has bounds-checked, so the out-of-range default
0 is never observed under the claims' hypotheses. -/
def pyGet (l : List ℤ) (i : ℤ) : ℤ :=
  if 0 ≤ i then l.getD i.toNat 0 else l.getD ((l.length : ℤ) + i).toNat 0

/-- Python write `l[i] = v` with negative indices counting from the end.  All
writes performed by the embedded code are in range. -/
def pySet (l : List ℚ) (i : ℤ) (v : ℚ) : List ℚ :=
  if 0 ≤ i then l.set i.toNat v else l.set ((l.length : ℤ) + i).toNat v

/-- MelodyEncoderDecoder.melody_to_label from
attention_rnn_encoder_decoder.py, over the melody's event list. -/
def melody_to_label (events : List ℤ) : ℤ :=
  if ((events.length : ℤ) ≤ 2 * STEPS_PER_BAR ∧ pyGet events (-1) = NO_EVENT) ∨
      (2 * STEPS_PER_BAR < (events.length : ℤ) ∧
        pyGet events (-1) = pyGet events (-(2 * STEPS_PER_BAR + 1))) then
    note_range + 3
  else if STEPS_PER_BAR < (events.length : ℤ) ∧
      pyGet events (-1) = pyGet events (-(STEPS_PER_BAR + 1)) then
    note_range + 2
  else if pyGet events (-1) = NOTE_OFF then note_range + 1
  else if pyGet events (-1) = NO_EVENT then note_range
  else pyGet events (-1) - MIN_NOTE

/-- Claim C2's labelling rule, written verbatim from the claim: the no-event
fallback of the 2-bar class applies when the history is strictly shorter than
2 bars; indices are counted from the front of the list. -/
def label_claimed (events : List ℤ) : ℤ :=
  let n : ℤ := (events.length : ℤ)
  let last := events.getD (events.length - 1) 0
  if (2 * 16 < n ∧ last = events.getD (events.length - (2 * 16 + 1)) 0) ∨
      (n < 2 * 16 ∧ last = NO_EVENT) then note_range + 3
  else if 16 < n ∧ last = events.getD (events.length - 17) 0 then note_range + 2
  else if last = NOTE_OFF then note_range + 1
  else if last = NO_EVENT then note_range
  else last - MIN_NOTE

/-- The amended labelling rule of claim C2: as `label_claimed` but the
no-event fallback applies whenever the history is at most 2 bars long
(length ≤ 32), matching the source's `<=` bound. -/
def label_amended (events : List ℤ) : ℤ :=
  let n : ℤ := (events.length : ℤ)
  let last := events.getD (events.length - 1) 0
  if (2 * 16 < n ∧ last = events.getD (events.length - (2 * 16 + 1)) 0) ∨
      (n ≤ 2 * 16 ∧ last = NO_EVENT) then note_range + 3
  else if 16 < n ∧ last = events.getD (events.length - 17) 0 then note_range + 2
  else if last = NOTE_OFF then note_range + 1
  else if last = NO_EVENT then note_range
  else last - MIN_NOTE

/-- MelodyEncoderDecoder.class_index_to_melody_event from
attention_rnn_encoder_decoder.py. -/
def class_index_to_melody_event (class_index : ℤ) (events : List ℤ) : ℤ :=
  if class_index = note_range + 3 then
    if (events.length : ℤ) < 2 * STEPS_PER_BAR then NO_EVENT
    else pyGet events (-(2 * STEPS_PER_BAR))
  else if class_index = note_range + 2 then
    if (events.length : ℤ) < STEPS_PER_BAR then NO_EVENT
    else pyGet events (-STEPS_PER_BAR)
  else if class_index = note_range + 1 then NOTE_OFF
  else if class_index = note_range then NO_EVENT
  else MIN_NOTE + class_index

/-- The melody container: only its event list is touched by the embedded
code. -/
structure MonophonicMelody where
  events : List ℤ
deriving DecidableEq

/-- Modelled from the spec: melodies_lib.MonophonicMelody.get_major_key
histogram query (melodies_lib is not under src/): a 12-bin count of how well
the melody's pitches fit each of the 12 major keys; sentinel (negative)
codes are not pitches and are not counted. -/
def get_major_key_histogram (m : MonophonicMelody) : List ℚ :=
  (List.range 12).map fun k =>
    ((m.events.filter fun e =>
      decide (0 ≤ e) && decide (Int.emod (e - (k : ℤ)) 12 ∈ [0, 2, 4, 5, 7, 9, 11])).length : ℚ)

/-- Python `max` over a nonempty list ( `max(key_histogram)` ). -/
def pyMax (l : List ℚ) : ℚ :=
  match l with
  | [] => 0
  | h :: t => t.foldl max h

/-- The running state of the event scan at the top of melody_to_input:
the currently sounding pitch, whether the last event was a note onset,
the ascending/descending flag, and the most-recent-3-distinct-pitches
deque. -/
structure ScanState where
  current_note : Option ℤ
  is_attack : Bool
  is_ascending : Option Bool
  last_3_notes : List ℤ
deriving DecidableEq

/-- One iteration of the `for note in melody.events` scan of
melody_to_input. -/
def scanStep (s : ScanState) (note : ℤ) : ScanState :=
  if note = NO_EVENT then { s with is_attack := false }
  else if note = NOTE_OFF then { s with current_note := none }
  else
    let asc :=
      match s.last_3_notes.getLast? with
      | none => s.is_ascending
      | some lastNote =>
        if lastNote < note then some true
        else if note < lastNote then some false
        else s.is_ascending
    let l1 := if note ∈ s.last_3_notes then s.last_3_notes.erase note else s.last_3_notes
    let l2 := l1 ++ [note]
    { current_note := some note, is_attack := true, is_ascending := asc,
      last_3_notes := l2.drop (l2.length - 3) }

/-- The full event scan of melody_to_input. -/
def scan (events : List ℤ) : ScanState :=
  events.foldl scanStep ⟨none, false, none, []⟩

/-- Lines 107-115 of attention_rnn_encoder_decoder.py: the pitch one-hot,
any-note slot and silence slot.  `if current_note:` is Python truthiness:
both None and pitch 0 take the silence branch. -/
def setPitchSlots (v : List ℚ) (current_note : Option ℤ) : List ℚ :=
  match current_note with
  | some p => if p ≠ 0 then pySet (pySet v (p - MIN_NOTE) 1) note_range 1
      else pySet v (note_range + 1) 1
  | none => pySet v (note_range + 1) 1

/-- Lines 117-133: the onset flag, direction flag and the two repetition
flags. -/
def setEventFlags (v : List ℚ) (s : ScanState) (events : List ℤ) : List ℚ :=
  let v1 := if s.is_attack then pySet v (note_range + 2) 1 else v
  let v2 :=
    match s.is_ascending with
    | some true => pySet v1 (note_range + 3) 1
    | some false => pySet v1 (note_range + 3) (-1)
    | none => v1
  let v3 := if STEPS_PER_BAR + 1 ≤ (events.length : ℤ) ∧
      pyGet events (-1) = pyGet events (-(STEPS_PER_BAR + 1)) then
    pySet v2 (note_range + 4) 1 else v2
  if 2 * STEPS_PER_BAR + 1 ≤ (events.length : ℤ) ∧
      pyGet events (-1) = pyGet events (-(2 * STEPS_PER_BAR + 1)) then
    pySet v3 (note_range + 5) 1 else v3

/-- Lines 135-138: the 7 binary time counters (Python 2 integer division). -/
def writeCounters (v : List ℚ) (n : ℕ) : List ℚ :=
  (List.range 7).foldl
    (fun (acc : List ℚ) (i : ℕ) => pySet acc (note_range + 6 + (i : ℤ))
      (if (n / Nat.pow 2 i) % 2 ≠ 0 then (1 : ℚ) else -1)) v

/-- Lines 144-149 and 151-158: set 1.0 at offset + i for every histogram bin
i holding the maximal value. -/
def writeKeys (v : List ℚ) (off : ℤ) (hist : List ℚ) : List ℚ :=
  let max_val := pyMax hist
  hist.enum.foldl
    (fun acc p => if p.2 = max_val then pySet acc (off + (p.1 : ℤ)) 1 else acc) v

/-- MelodyEncoderDecoder.melody_to_input from
attention_rnn_encoder_decoder.py.  Returns the input vector together with the
melody object as it stands when the method returns (the scratch substitution
of the event list by the last-3-notes list is performed and then reverted). -/
def melody_to_input (melody : MonophonicMelody) : List ℚ × MonophonicMelody :=
  let s := scan melody.events
  let v0 := List.replicate input_size.toNat (0 : ℚ)
  let v1 := setPitchSlots v0 s.current_note
  let v2 := setEventFlags v1 s melody.events
  let v3 := writeCounters v2 melody.events.length
  let v4 := if (melody.events.length : ℤ) % STEPS_PER_BAR = 0 then
    pySet v3 (note_range + 13) 1 else v3
  let v5 := writeKeys v4 (note_range + 14) (get_major_key_histogram melody)
  let melody_events_backup := melody.events
  let scratch : MonophonicMelody := { melody with events := s.last_3_notes }
  let v6 := writeKeys v5 (note_range + 14 + NOTES_PER_OCTAVE)
    (get_major_key_histogram scratch)
  (v6, { scratch with events := melody_events_backup })

/-- A sample quantized note used by concrete instances. -/
def note60 : Note := ⟨60, 100, 0, 1, 0, 0⟩

/-- A second sample quantized note. -/
def note62 : Note := ⟨62, 100, 2, 3, 0, 0⟩

/-- A quantized sequence holding one track with one note. -/
def qB : QuantizedSequence := { reset with tracks := [(0, [note60])] }

/-- Two notes inserted in one order. -/
def qOrdA : QuantizedSequence := { reset with tracks := [(0, [note60, note62])] }

/-- The same two notes inserted in the other order. -/
def qOrdB : QuantizedSequence := { reset with tracks := [(0, [note62, note60])] }

/-- A note sequence carrying two time-signature records. -/
def nsTwoTS : NoteSequence := ⟨[], [], [⟨3, 4⟩, ⟨4, 4⟩]⟩

/-- A note sequence whose single time signature has denominator 3. -/
def nsBadTS : NoteSequence := ⟨[], [], [⟨3, 3⟩]⟩

/-- A proto note starting at −1 s (negative quantized step at 60 bpm). -/
def badNSNote : NSNote := ⟨60, 100, -1, 2, 0, 0⟩

/-- A note sequence containing the negative-time note at 60 bpm. -/
def nsBadNote : NoteSequence := ⟨[badNSNote], [⟨60⟩], []⟩

/-- A proto note whose start and end times quantize to the same step. -/
def goodNSNote : NSNote := ⟨60, 100, 0, 0, 0, 0⟩

/-- A valid note sequence at 60 bpm holding the zero-length note. -/
def nsGood : NoteSequence := ⟨[goodNSNote], [⟨60⟩], []⟩

/-! ### Helper lemmas -/

/-- Python negative-index read, resolved against the list length. -/
lemma pyGet_neg (l : List ℤ) (i : ℤ) (h : i < 0) :
    pyGet l i = l.getD ((l.length : ℤ) + i).toNat 0 := by
  rw [pyGet, if_neg (by omega)]

lemma pyGet_neg_getD (l : List ℤ) (i : ℤ) (k : ℕ) (hik : i = -(k : ℤ)) (hk : 0 < k) :
    pyGet l i = l.getD (l.length - k) 0 := by
  subst hik
  rw [pyGet_neg l (-(k : ℤ)) (by omega)]
  congr 1
  omega


/-! ### Claim C1 -/

/-- Claim C1 (corrected claim): on every nonnegative product t × steps_per_second
the quantizer computes floor(t × steps_per_second + (1 − 0.5)) with round-half-up
semantics: a value exactly half a step past a step rounds to the later step,
values strictly more than half a step past a step round up, and values less
than half a step past a step round down.  (For negative products the Python
`int()` truncation toward zero differs from floor; see the counterexample.) -/
theorem c1_quantize_half_up_amended (t sps : ℚ) (h : 0 ≤ t * sps) :
    quantize (t * sps) = Int.floor (t * sps + (1 - QUANTIZE_CUTOFF)) ∧
    (∀ k : ℤ, t * sps = (k : ℚ) + 1/2 → quantize (t * sps) = k + 1) ∧
    (∀ k : ℤ, (k : ℚ) ≤ t * sps → t * sps < (k : ℚ) + 1/2 → quantize (t * sps) = k) ∧
    (∀ k : ℤ, (k : ℚ) + 1/2 < t * sps → t * sps ≤ (k : ℚ) + 1 → quantize (t * sps) = k + 1) := by
  have hq : quantize (t * sps) = Int.floor (t * sps + (1 - QUANTIZE_CUTOFF)) := by
    rw [quantize, pyInt, if_pos]
    rw [QUANTIZE_CUTOFF]
    linarith
  refine ⟨hq, fun k hk => ?_, fun k hk1 hk2 => ?_, fun k hk1 hk2 => ?_⟩
  · rw [hq, QUANTIZE_CUTOFF, hk]
    have : (k : ℚ) + 1/2 + (1 - 1/2) = ((k + 1 : ℤ) : ℚ) := by push_cast; ring
    rw [this, Int.floor_intCast]
  · rw [hq, QUANTIZE_CUTOFF]
    rw [Int.floor_eq_iff]
    constructor <;> linarith
  · rw [hq, QUANTIZE_CUTOFF]
    rw [Int.floor_eq_iff]
    refine ⟨by push_cast; linarith, by push_cast; linarith⟩

/-- Witness for C1: at 60 bpm and 4 steps per beat (steps_per_second = 4), the
time 1/8 s lies exactly half a step past step 0 and quantizes to step 1. -/
theorem c1_witness : quantize ((1/8 : ℚ) * 4) = 1 := by
  have h := (c1_quantize_half_up_amended (1/8) 4 (by norm_num)).2.1 0 (by norm_num)
  simpa using h

/-- Counterexample to C1 as stated: at the input time −3/10 s with
steps_per_second = 4 the code truncates toward zero and yields step 0, while
the claimed floor formula yields −1. -/
theorem c1_claim_counterexample :
    quantize ((-3/10 : ℚ) * 4) = 0 ∧
    Int.floor ((-3/10 : ℚ) * 4 + (1 - QUANTIZE_CUTOFF)) = -1 := by
  constructor
  · rw [quantize, pyInt, if_neg] <;> rw [QUANTIZE_CUTOFF] <;> norm_num
  · rw [QUANTIZE_CUTOFF]
    norm_num

/-! ### Claim C2 -/

/-- Claim C2 (corrected claim): for every melody, melody_to_label follows the
claimed strict precedence order, with one boundary corrected: the no-event
fallback of the 2-bar class applies whenever the history is at most 2 bars
long (length ≤ 2×16), not only when it is strictly shorter than 2 bars; and
when both the 1-bar-ago and the 2-bar-ago positions equal the last event the
label is the 2-bar class note_range+3, not the 1-bar class note_range+2. -/
theorem c2_label_precedence_amended (l : List ℤ) :
    melody_to_label l = label_amended l ∧
    (2 * STEPS_PER_BAR < (l.length : ℤ) →
      pyGet l (-1) = pyGet l (-(2 * STEPS_PER_BAR + 1)) →
      pyGet l (-1) = pyGet l (-(STEPS_PER_BAR + 1)) →
      melody_to_label l = note_range + 3 ∧ melody_to_label l ≠ note_range + 2) := by
  constructor
  · rw [melody_to_label, label_amended]
    rw [pyGet_neg_getD l (-1) 1 (by norm_num) (by norm_num)]
    rw [pyGet_neg_getD l (-(2 * STEPS_PER_BAR + 1)) (2 * 16 + 1) (by norm_num [STEPS_PER_BAR]) (by norm_num)]
    rw [pyGet_neg_getD l (-(STEPS_PER_BAR + 1)) 17 (by norm_num [STEPS_PER_BAR]) (by norm_num)]
    simp only [STEPS_PER_BAR]
    norm_num
    split_ifs <;> tauto
  · intro hlen h2 h1
    rw [melody_to_label, if_pos (Or.inr ⟨hlen, h2⟩)]
    exact ⟨rfl, by decide⟩

/-- Witness for C2: a 33-event melody of no-events matches both the 1-bar and
the 2-bar repeat patterns and is labelled with the 2-bar class 39. -/
theorem c2_witness :
    melody_to_label (List.replicate 33 (-2)) = note_range + 3 ∧
    melody_to_label (List.replicate 33 (-2)) ≠ note_range + 2 :=
  (c2_label_precedence_amended (List.replicate 33 (-2))).2
    (by decide) (by decide) (by decide)

/-- Counterexample to C2 as stated: a 32-event melody whose last event is a
no-event and whose event 16 steps before the last is a pitch.  The history is
exactly 2 bars long (not shorter), so the claimed rule labels it note_range
(no-event class), but the code labels it note_range+3 (2-bar class). -/
theorem c2_claim_counterexample :
    melody_to_label (List.replicate 15 (-2) ++ 50 :: List.replicate 16 (-2)) = note_range + 3 ∧
    label_claimed (List.replicate 15 (-2) ++ 50 :: List.replicate 16 (-2)) = note_range ∧
    label_claimed (List.replicate 15 (-2) ++ 50 :: List.replicate 16 (-2)) ≠
      melody_to_label (List.replicate 15 (-2) ++ 50 :: List.replicate 16 (-2)) := by
  refine ⟨by decide, by decide, by decide⟩

/-! ### Claim C4 -/

/-- Claim C4 (corrected claim): for every melody whose last event is a plain
note-on at pitch P inside the model's pitch window (min_note ≤ P < max_note)
such that no repeat pattern matches, melody_to_label returns P − min_note and
class_index_to_melody_event maps that label back to the absolute pitch P.
(For P outside the window the round trip fails; see the counterexample.) -/
theorem c4_roundtrip_amended (l : List ℤ) (P : ℤ)
    (hlast : pyGet l (-1) = P) (hlo : MIN_NOTE ≤ P) (hhi : P < MAX_NOTE)
    (hno2 : ¬(2 * STEPS_PER_BAR < (l.length : ℤ) ∧
      pyGet l (-1) = pyGet l (-(2 * STEPS_PER_BAR + 1))))
    (hno1 : ¬(STEPS_PER_BAR < (l.length : ℤ) ∧
      pyGet l (-1) = pyGet l (-(STEPS_PER_BAR + 1)))) :
    melody_to_label l = P - MIN_NOTE ∧
    class_index_to_melody_event (melody_to_label l) l = P := by
  rw [MIN_NOTE] at hlo
  rw [MAX_NOTE] at hhi
  have hlabel : melody_to_label l = P - MIN_NOTE := by
    rw [melody_to_label, hlast]
    rw [if_neg, if_neg, if_neg, if_neg]
    · rw [NO_EVENT]
      omega
    · rw [NOTE_OFF]
      omega
    · rw [hlast] at hno1
      exact hno1
    · rw [hlast] at hno2
      rintro (⟨_, hne⟩ | hrep)
      · rw [NO_EVENT] at hne
        omega
      · exact hno2 hrep
  refine ⟨hlabel, ?_⟩
  rw [hlabel, class_index_to_melody_event, if_neg, if_neg, if_neg, if_neg]
  · rw [MIN_NOTE]
    omega
  all_goals rw [note_range, MIN_NOTE, MAX_NOTE]
  all_goals omega

/-- Witness for C4: the single-event melody [50] round-trips: label 2 and
decoded event 50. -/
theorem c4_witness :
    melody_to_label [50] = 50 - MIN_NOTE ∧
    class_index_to_melody_event (melody_to_label [50]) [50] = 50 :=
  c4_roundtrip_amended [50] 50 (by decide) (by decide) (by decide)
    (by decide) (by decide)

/-- Counterexample to C4 as stated: the melody [84] ends in a plain note-on at
pitch 84 and no repeat pattern matches, but the label 36 collides with the
no-event class, so decoding returns the no-event sentinel, not 84. -/
theorem c4_claim_counterexample :
    melody_to_label [84] = 36 ∧
    class_index_to_melody_event (melody_to_label [84]) [84] = NO_EVENT ∧
    class_index_to_melody_event (melody_to_label [84]) [84] ≠ 84 := by
  refine ⟨by decide, by decide, by decide⟩

/-! ### Claim C9 -/

/-- Claim C9 (corrected claim): for every non-empty melody whose last event is
a sentinel (no-event or note-off) or a pitch inside the model's window
[min_note, max_note), melody_to_label returns an integer in
[0, note_range + 4).  (For out-of-window pitches the label leaves that range;
see the counterexample.) -/
theorem c9_label_range_amended (l : List ℤ)
    (h : pyGet l (-1) = NO_EVENT ∨ pyGet l (-1) = NOTE_OFF ∨
      (MIN_NOTE ≤ pyGet l (-1) ∧ pyGet l (-1) < MAX_NOTE)) :
    0 ≤ melody_to_label l ∧ melody_to_label l < note_range + 4 := by
  rw [melody_to_label]
  split_ifs with h1 h2 h3 h4
  · rw [note_range, MIN_NOTE, MAX_NOTE]
    omega
  · rw [note_range, MIN_NOTE, MAX_NOTE]
    omega
  · rw [note_range, MIN_NOTE, MAX_NOTE]
    omega
  · rw [note_range, MIN_NOTE, MAX_NOTE]
    omega
  · rcases h with hne | hoff | hwin
    · exact absurd hne h4
    · exact absurd hoff h3
    · rw [note_range, MIN_NOTE, MAX_NOTE]
      rw [MIN_NOTE, MAX_NOTE] at hwin
      omega

/-- Witness for C9: the single no-event melody is labelled 39 ∈ [0, 40). -/
theorem c9_witness :
    0 ≤ melody_to_label [-2] ∧ melody_to_label [-2] < note_range + 4 :=
  c9_label_range_amended [-2] (by decide)

/-- Counterexample to C9 as stated: the melody [47] (a pitch one below
min_note) is labelled −1, outside [0, note_range + 4). -/
theorem c9_claim_counterexample :
    melody_to_label [47] = -1 ∧
    ¬(0 ≤ melody_to_label [47] ∧ melody_to_label [47] < note_range + 4) := by
  refine ⟨by decide, by decide⟩

/-! ### Quantizer loop lemmas -/

/-- The note loop can only raise BadNote. -/
lemma quantize_notes_err (sps : ℚ) :
    ∀ (l : List NSNote) (s : QuantizedSequence) (e : QErr),
      (quantize_notes sps l s).2 = some e → e = QErr.badNote := by
  intro l
  induction l with
  | nil => intro s e h; simp [quantize_notes] at h
  | cons n rest ih =>
    intro s e h
    simp only [quantize_notes] at h
    split at h
    · simpa using h.symm
    · exact ih _ _ h

/-- The note loop never touches bpm, time signature or steps per beat. -/
lemma quantize_notes_fields (sps : ℚ) :
    ∀ (l : List NSNote) (s : QuantizedSequence),
      (quantize_notes sps l s).1.bpm = s.bpm ∧
      (quantize_notes sps l s).1.time_signature = s.time_signature ∧
      (quantize_notes sps l s).1.steps_per_beat = s.steps_per_beat := by
  intro l
  induction l with
  | nil => intro s; simp [quantize_notes]
  | cons n rest ih =>
    intro s
    simp only [quantize_notes]
    split
    · exact ⟨rfl, rfl, rfl⟩
    · exact ih _

/-- A note whose quantized steps are negative makes the loop raise BadNote. -/
lemma quantize_notes_badNote (sps : ℚ) :
    ∀ (l : List NSNote) (s : QuantizedSequence),
      (∃ n ∈ l, (mkQNote sps n).start < 0 ∨ (mkQNote sps n).end_ < 0) →
      (quantize_notes sps l s).2 = some QErr.badNote := by
  intro l
  induction l with
  | nil =>
    rintro s ⟨n, hn, _⟩
    simp at hn
  | cons m rest ih =>
    rintro s ⟨n, hn, hbad⟩
    simp only [quantize_notes]
    split
    · rfl
    · rename_i hgood
      rcases List.mem_cons.mp hn with rfl | hmem
      · exact absurd hbad hgood
      · exact ih _ ⟨n, hmem, hbad⟩

/-! ### Claim C7 -/

/-- Claim C7 (confirmed): the load raises MultipleTimeSignature when more than
one time-signature record is supplied; BadTimeSignature when the single (or
default 4/4) time signature's denominator is not a power of two; and BadNote
when some note's computed quantized start or (widened) end step is negative;
each failure is returned to the caller immediately. -/
theorem c7_error_taxonomy (self : QuantizedSequence) (ns : NoteSequence) (spb : ℤ) :
    (1 < ns.time_signatures.length →
      (from_note_sequence self ns spb).2 = some QErr.multipleTimeSignature) ∧
    (ns.time_signatures.length ≤ 1 →
      is_power_of_2 (adoptedTS ns).denominator = false →
      (from_note_sequence self ns spb).2 = some QErr.badTimeSignature) ∧
    (ns.time_signatures.length ≤ 1 →
      is_power_of_2 (adoptedTS ns).denominator = true →
      (∃ n ∈ ns.notes, (mkQNote (stepsPerSecond ns spb) n).start < 0 ∨
        (mkQNote (stepsPerSecond ns spb) n).end_ < 0) →
      (from_note_sequence self ns spb).2 = some QErr.badNote) := by
  refine ⟨fun h1 => ?_, fun h1 h2 => ?_, fun h1 h2 h3 => ?_⟩
  · simp only [from_note_sequence]
    rw [if_pos h1]
  · simp only [from_note_sequence]
    rw [if_neg (by omega), if_neg (by simp [h2])]
  · simp only [from_note_sequence]
    rw [if_neg (by omega), if_pos (by simp [h2])]
    exact quantize_notes_badNote _ _ _ h3

/-- Witness for C7: two time signatures raise MultipleTimeSignature,
denominator 3 raises BadTimeSignature, and a note at −1 s raises BadNote. -/
theorem c7_witness :
    (from_note_sequence reset nsTwoTS 3).2 = some QErr.multipleTimeSignature ∧
    (from_note_sequence reset nsBadTS 4).2 = some QErr.badTimeSignature ∧
    (from_note_sequence reset nsBadNote 4).2 = some QErr.badNote := by
  refine ⟨(c7_error_taxonomy reset nsTwoTS 3).1 (by decide),
    (c7_error_taxonomy reset nsBadTS 4).2.1 (by decide) (by decide),
    (c7_error_taxonomy reset nsBadNote 4).2.2 (by decide) (by decide) ?_⟩
  refine ⟨badNSNote, by decide, Or.inl ?_⟩
  have hstart : (mkQNote (stepsPerSecond nsBadNote 4) badNSNote).start = -3 := by
    norm_num [mkQNote, quantize, pyInt, stepsPerSecond, adoptedBpm, nsBadNote,
      badNSNote, QUANTIZE_CUTOFF, Int.ceil_eq_iff]
  rw [hstart]
  decide

/-! ### Claim C3 -/

/-- Claim C3 (corrected claim): a failed load leaves no state from before the
call (the reset runs first, so the result is independent of the receiver's
prior state), but not the default-empty state: steps_per_beat already holds
the new value on every failure; on BadTimeSignature the adopted time
signature is also set; on BadNote the adopted bpm and time signature are set
(and earlier notes may already sit in tracks). -/
theorem c3_failed_load_state_amended (self : QuantizedSequence) (ns : NoteSequence) (spb : ℤ) :
    from_note_sequence self ns spb = from_note_sequence reset ns spb ∧
    ((from_note_sequence self ns spb).2 = some QErr.multipleTimeSignature →
      (from_note_sequence self ns spb).1 = { reset with steps_per_beat := spb }) ∧
    ((from_note_sequence self ns spb).2 = some QErr.badTimeSignature →
      (from_note_sequence self ns spb).1 =
        { reset with steps_per_beat := spb, time_signature := adoptedTS ns }) ∧
    ((from_note_sequence self ns spb).2 = some QErr.badNote →
      (from_note_sequence self ns spb).1.bpm = adoptedBpm ns ∧
      (from_note_sequence self ns spb).1.steps_per_beat = spb ∧
      (from_note_sequence self ns spb).1.time_signature = adoptedTS ns) := by
  refine ⟨rfl, ?_, ?_, ?_⟩ <;> simp only [from_note_sequence] <;>
    by_cases h1 : 1 < ns.time_signatures.length
  · rw [if_pos h1]
    intro
    rfl
  · rw [if_neg h1]
    by_cases h2 : is_power_of_2 (adoptedTS ns).denominator = true
    · rw [if_pos (by simpa using h2)]
      intro h
      exact absurd (quantize_notes_err _ _ _ _ h) (by decide)
    · rw [if_neg (by simpa using h2)]
      intro h
      simp at h
  · rw [if_pos h1]
    intro h
    simp at h
  · rw [if_neg h1]
    by_cases h2 : is_power_of_2 (adoptedTS ns).denominator = true
    · rw [if_pos (by simpa using h2)]
      intro h
      exact absurd (quantize_notes_err _ _ _ _ h) (by decide)
    · rw [if_neg (by simpa using h2)]
      intro
      rfl
  · rw [if_pos h1]
    intro h
    simp at h
  · rw [if_neg h1]
    by_cases h2 : is_power_of_2 (adoptedTS ns).denominator = true
    · rw [if_pos (by simpa using h2)]
      intro
      exact ⟨(quantize_notes_fields _ _ _).1, (quantize_notes_fields _ _ _).2.2,
        (quantize_notes_fields _ _ _).2.1⟩
    · rw [if_neg (by simpa using h2)]
      intro h
      simp at h

/-- Witness for C3: a failure with steps_per_beat 3 leaves the receiver in
the reset state except that steps_per_beat is 3, not the default 4. -/
theorem c3_witness :
    (from_note_sequence reset nsTwoTS 3).1 = { reset with steps_per_beat := 3 } :=
  (c3_failed_load_state_amended reset nsTwoTS 3).2.1 (by decide)

/-- Counterexample to C3 as stated: after a MultipleTimeSignature failure with
steps_per_beat 3 the receiver is not in the default-empty state (its
steps_per_beat is 3, the default is 4). -/
theorem c3_claim_counterexample :
    (from_note_sequence reset nsTwoTS 3).2 = some QErr.multipleTimeSignature ∧
    (from_note_sequence reset nsTwoTS 3).1 ≠ reset := by
  refine ⟨by decide, by decide⟩

/-! ### Track-dict lemmas for C8 -/

/-- Unfolding lookup over a cons cell. -/
lemma lookupT_cons (p : ℤ × List Note) (t : List (ℤ × List Note)) (k : ℤ) :
    lookupT (p :: t) k = if p.1 = k then p.2 else lookupT t k := by
  by_cases hpk : p.1 = k
  · rw [lookupT, List.find?_cons_of_pos _ (by simp [hpk]), if_pos hpk]
  · rw [lookupT, List.find?_cons_of_neg _ (by simp [hpk]), if_neg hpk]
    rfl

/-- Appending new entries preserves an existing lookup hit. -/
lemma lookupT_append (tr rest : List (ℤ × List Note)) (k : ℤ) (x : Note)
    (h : x ∈ lookupT tr k) : x ∈ lookupT (tr ++ rest) k := by
  induction tr with
  | nil => simp [lookupT] at h
  | cons p t ih =>
    rw [List.cons_append, lookupT_cons]
    rw [lookupT_cons] at h
    split_ifs at h ⊢ with hpk
    · exact h
    · exact ih h

/-- The per-entry append used by addNote preserves membership. -/
lemma lookupT_map_extend (k2 : ℤ) (q : Note) :
    ∀ (tr : List (ℤ × List Note)) (k : ℤ) (x : Note), x ∈ lookupT tr k →
      x ∈ lookupT (tr.map fun p => if p.1 == k2 then (p.1, p.2 ++ [q]) else p) k := by
  intro tr
  induction tr with
  | nil => intro k x h; simp [lookupT] at h
  | cons p t ih =>
    intro k x h
    rw [lookupT_cons] at h
    rw [List.map_cons]
    by_cases hpk2 : p.1 = k2
    · rw [if_pos (by simp [hpk2]), lookupT_cons]
      split_ifs at h ⊢ with hpk
      · exact List.mem_append_left _ h
      · exact ih k x h
    · rw [if_neg (by simp [hpk2]), lookupT_cons]
      split_ifs at h ⊢ with hpk
      · exact h
      · exact ih k x h

/-- The note q lands in track k after addNote. -/
lemma lookupT_addNote_self : ∀ (tr : List (ℤ × List Note)) (k : ℤ) (q : Note),
    q ∈ lookupT (addNote tr k q) k := by
  intro tr k q
  induction tr with
  | nil =>
    rw [addNote]
    rw [if_neg (by simp)]
    simp [lookupT_cons]
  | cons p t ih =>
    rw [addNote]
    by_cases hany : (p :: t).any (fun r => r.1 == k) = true
    · rw [if_pos hany, List.map_cons]
      by_cases hpk : p.1 = k
      · rw [if_pos (by simp [hpk]), lookupT_cons, if_pos hpk]
        simp
      · rw [if_neg (by simp [hpk]), lookupT_cons, if_neg hpk]
        have htany : t.any (fun r => r.1 == k) = true := by
          rcases (List.any_eq_true).mp hany with ⟨r, hr, hrk⟩
          rcases List.mem_cons.mp hr with rfl | hrt
          · exact absurd (by simpa using hrk) hpk
          · exact (List.any_eq_true).mpr ⟨r, hrt, hrk⟩
        have := ih
        rw [addNote, if_pos htany] at this
        exact this
    · rw [if_neg hany, List.cons_append, lookupT_cons]
      have hpk : ¬ p.1 = k := by
        intro hh
        exact hany (by simp [List.any_cons, hh])
      rw [if_neg hpk]
      have htany : ¬ t.any (fun r => r.1 == k) = true := by
        intro hh
        exact hany (by simp [List.any_cons, hh])
      have := ih
      rw [addNote, if_neg htany] at this
      exact this

/-- addNote never removes a note from any track. -/
lemma lookupT_addNote_mono (tr : List (ℤ × List Note)) (k2 k : ℤ) (q x : Note)
    (h : x ∈ lookupT tr k) : x ∈ lookupT (addNote tr k2 q) k := by
  rw [addNote]
  split_ifs with hany
  · exact lookupT_map_extend k2 q tr k x h
  · exact lookupT_append tr _ k x h

/-- The note loop never removes notes already grouped into tracks. -/
lemma quantize_notes_mem_mono (sps : ℚ) :
    ∀ (l : List NSNote) (s sf : QuantizedSequence),
      quantize_notes sps l s = (sf, none) →
      ∀ (k : ℤ) (x : Note), x ∈ lookupT s.tracks k → x ∈ lookupT sf.tracks k := by
  intro l
  induction l with
  | nil =>
    intro s sf h k x hx
    simp only [quantize_notes, Prod.mk.injEq] at h
    rw [← h.1]
    exact hx
  | cons n rest ih =>
    intro s sf h k x hx
    simp only [quantize_notes] at h
    split at h
    · simp at h
    · exact ih _ _ h k x (lookupT_addNote_mono _ _ _ _ _ hx)

/-- On success, every input note's quantized image sits in its track. -/
lemma quantize_notes_mem (sps : ℚ) :
    ∀ (l : List NSNote) (s sf : QuantizedSequence),
      quantize_notes sps l s = (sf, none) →
      ∀ n ∈ l, mkQNote sps n ∈ lookupT sf.tracks n.instrument := by
  intro l
  induction l with
  | nil => intro s sf h n hn; simp at hn
  | cons m rest ih =>
    intro s sf h n hn
    simp only [quantize_notes] at h
    split at h
    · simp at h
    · rcases List.mem_cons.mp hn with rfl | hmem
      · exact quantize_notes_mem_mono sps rest _ _ h _ _ (lookupT_addNote_self _ _ _)
      · exact ih _ _ h n hmem

/-! ### Claim C8 -/

/-- Claim C8 (confirmed): on a successful load, every input note appears in
its instrument's track with start step quantize(start_time × sps); a note
whose quantized start equals its quantized end is widened to exactly one step
(end = start + 1, the widening happening before the negative-step check in
the loop body), and a note whose quantized steps differ keeps them. -/
theorem c8_zero_length_widening (self : QuantizedSequence) (ns : NoteSequence) (spb : ℤ)
    (h : (from_note_sequence self ns spb).2 = none) :
    ∀ n ∈ ns.notes,
      mkQNote (stepsPerSecond ns spb) n ∈
        lookupT (from_note_sequence self ns spb).1.tracks n.instrument ∧
      (mkQNote (stepsPerSecond ns spb) n).start =
        quantize (n.start_time * stepsPerSecond ns spb) ∧
      (quantize (n.end_time * stepsPerSecond ns spb) =
          quantize (n.start_time * stepsPerSecond ns spb) →
        (mkQNote (stepsPerSecond ns spb) n).end_ =
          quantize (n.start_time * stepsPerSecond ns spb) + 1) ∧
      (quantize (n.end_time * stepsPerSecond ns spb) ≠
          quantize (n.start_time * stepsPerSecond ns spb) →
        (mkQNote (stepsPerSecond ns spb) n).end_ =
          quantize (n.end_time * stepsPerSecond ns spb)) := by
  intro n hn
  refine ⟨?_, rfl, fun he => by simp [mkQNote, he], fun he => by simp [mkQNote, he]⟩
  simp only [from_note_sequence] at h ⊢
  by_cases h1 : 1 < ns.time_signatures.length
  · rw [if_pos h1] at h
    simp at h
  · rw [if_neg h1] at h ⊢
    by_cases h2 : is_power_of_2 (adoptedTS ns).denominator = true
    · rw [if_pos (by simpa using h2)] at h ⊢
      exact quantize_notes_mem _ _ _ _ (by rw [← h]) n hn
    · rw [if_neg (by simpa using h2)] at h
      simp at h

/-- Witness for C8: a note with start = end = 0 s at 60 bpm is widened to the
1-step note (0, 1) and lands in track 0. -/
theorem c8_witness :
    (from_note_sequence reset nsGood 4).2 = none ∧
    mkQNote (stepsPerSecond nsGood 4) goodNSNote ∈
      lookupT (from_note_sequence reset nsGood 4).1.tracks goodNSNote.instrument ∧
    (mkQNote (stepsPerSecond nsGood 4) goodNSNote).end_ =
      quantize (goodNSNote.start_time * stepsPerSecond nsGood 4) + 1 := by
  have hsps : stepsPerSecond nsGood 4 = 4 := by
    norm_num [stepsPerSecond, adoptedBpm, nsGood]
  have hnote : mkQNote (stepsPerSecond nsGood 4) goodNSNote = note60 := by
    rw [hsps]
    have hq : quantize (0 : ℚ) = 0 := by
      norm_num [quantize, pyInt, QUANTIZE_CUTOFF]
    simp [mkQNote, goodNSNote, hq, note60]
  have h2 : (from_note_sequence reset nsGood 4).2 = none := by
    simp only [from_note_sequence]
    rw [if_neg (by decide), if_pos (by decide)]
    have hlist : nsGood.notes = [goodNSNote] := rfl
    rw [hlist]
    simp only [quantize_notes, hnote]
    rw [if_neg (by decide)]
  refine ⟨h2, (c8_zero_length_widening reset nsGood 4 h2 goodNSNote (by decide)).1,
    (c8_zero_length_widening reset nsGood 4 h2 goodNSNote (by decide)).2.2.1 rfl⟩

/-! ### Claim C6 -/

/-- With unique keys, find? returns exactly the entry whose key matches. -/
lemma find?_eq_of_nodup_keys (b : List (ℤ × List Note))
    (hnd : (b.map Prod.fst).Nodup) (q : ℤ × List Note) (hq : q ∈ b) (k : ℤ)
    (hk : q.1 = k) : b.find? (fun r => r.1 == k) = some q := by
  induction b with
  | nil => simp at hq
  | cons p t ih =>
    rw [List.map_cons, List.nodup_cons] at hnd
    rcases List.mem_cons.mp hq with rfl | hqt
    · exact List.find?_cons_of_pos _ (by simp [hk])
    · have hpk : ¬ p.1 = k := by
        intro hh
        exact hnd.1 (List.mem_map.mpr ⟨q, hqt, hk.trans hh.symm⟩)
      rw [List.find?_cons_of_neg _ (by simp [hpk])]
      exact ih hnd.2 hqt

/-- Claim C6 (corrected claim): equality compares bpm, time signature and
steps per beat, and for every track key of the LEFT operand requires the key
in the right operand with an order-independent (set) match of the note lists;
extra tracks of the right operand are ignored, so the relation is not
symmetric and is not sensitive to track membership in the right operand. -/
theorem c6_eq_semantics (a b : QuantizedSequence)
    (hnd : (b.tracks.map Prod.fst).Nodup) :
    qs_eq a b = true ↔
      ((∀ p ∈ a.tracks, ∃ q ∈ b.tracks, q.1 = p.1 ∧ ∀ x : Note, x ∈ p.2 ↔ x ∈ q.2) ∧
       a.bpm = b.bpm ∧ a.time_signature = b.time_signature ∧
       a.steps_per_beat = b.steps_per_beat) := by
  rw [qs_eq]
  simp only [Bool.and_eq_true, List.all_eq_true, beq_iff_eq]
  constructor
  · rintro ⟨⟨⟨hall, hbpm⟩, hts⟩, hspb⟩
    refine ⟨?_, hbpm, hts, hspb⟩
    intro p hp
    have hmatch := hall p hp
    cases hfind : b.tracks.find? (fun r => r.1 == p.1) with
    | none =>
      rw [hfind] at hmatch
      simp at hmatch
    | some q =>
      rw [hfind] at hmatch
      simp only [Bool.and_eq_true, List.all_eq_true, List.any_eq_true,
        beq_iff_eq] at hmatch
      refine ⟨q, List.mem_of_find?_eq_some hfind,
        by simpa using List.find?_some hfind, ?_⟩
      intro x
      constructor
      · intro hx
        obtain ⟨y, hy, rfl⟩ := hmatch.1 x hx
        exact hy
      · intro hx
        obtain ⟨y, hy, rfl⟩ := hmatch.2 x hx
        exact hy
  · rintro ⟨htr, hbpm, hts, hspb⟩
    refine ⟨⟨⟨?_, hbpm⟩, hts⟩, hspb⟩
    intro p hp
    obtain ⟨q, hqb, hqk, hiff⟩ := htr p hp
    rw [find?_eq_of_nodup_keys b.tracks hnd q hqb p.1 hqk]
    simp only [Bool.and_eq_true, List.all_eq_true, List.any_eq_true, beq_iff_eq]
    constructor
    · intro x hx
      exact ⟨x, (hiff x).mp hx, rfl⟩
    · intro x hx
      exact ⟨x, (hiff x).mpr hx, rfl⟩

/-- Witness for C6: the same two notes inserted in either order give equal
sequences. -/
theorem c6_witness : qs_eq qOrdA qOrdB = true := by
  refine (c6_eq_semantics qOrdA qOrdB (by decide)).mpr ⟨?_, rfl, rfl, rfl⟩
  intro p hp
  have hp2 : p = (0, [note60, note62]) := by
    simpa [qOrdA] using hp
  subst hp2
  refine ⟨(0, [note62, note60]), by simp [qOrdB], rfl, ?_⟩
  intro x
  simp only [List.mem_cons, List.not_mem_nil, or_false]
  tauto

/-- Counterexample to C6 as stated: the default-empty sequence and a sequence
holding one track compare equal (the code only iterates over the left
operand's tracks), although track membership differs; the reversed comparison
is false, so the claimed iff fails. -/
theorem c6_claim_counterexample :
    qs_eq reset qB = true ∧
    note60 ∈ lookupT qB.tracks 0 ∧
    note60 ∉ lookupT reset.tracks 0 ∧
    qs_eq qB reset = false := by
  refine ⟨by decide, by decide, by decide, by decide⟩

/-! ### Claim C5 -/

/-- Claim C5 (confirmed): melody_to_input returns the melody with its event
list identical to the one it was called with, although it internally
substitutes the event list by the last-3-notes scratch list for the second
key histogram and restores the backup afterwards. -/
theorem c5_encode_restores_events (m : MonophonicMelody) :
    (melody_to_input m).2 = m := by
  cases m
  rfl

/-! ### Vector-write lemmas for C10 -/

/-- A write at a nonnegative Python index away from the observed index. -/
lemma getD_pySet_ne (v : List ℚ) (i : ℤ) (x : ℚ) (j : ℕ) (h0 : 0 ≤ i)
    (hne : i.toNat ≠ j) : (pySet v i x).getD j 0 = v.getD j 0 := by
  rw [pySet, if_pos h0]
  simp [List.getD_eq_getElem?_getD, List.getElem?_set_ne hne]

/-- A write at a nonnegative in-range Python index, observed at that index. -/
lemma getD_pySet_self (v : List ℚ) (i : ℤ) (x : ℚ) (h0 : 0 ≤ i)
    (hlt : i.toNat < v.length) : (pySet v i x).getD i.toNat 0 = x := by
  rw [pySet, if_pos h0]
  simp [List.getD_eq_getElem?_getD, List.getElem?_set_self, hlt]

/-- A write at a negative Python index resolves against the list length. -/
lemma pySet_neg (v : List ℚ) (i : ℤ) (x : ℚ) (h : i < 0) :
    pySet v i x = v.set ((v.length : ℤ) + i).toNat x := by
  rw [pySet, if_neg (by omega)]

/-- Writes guarded by a condition, away from the observed index. -/
lemma getD_ite_pySet (c : Prop) [Decidable c] (v : List ℚ) (i : ℤ) (x : ℚ)
    (j : ℕ) (h0 : 0 ≤ i) (hne : i.toNat ≠ j) :
    (if c then pySet v i x else v).getD j 0 = v.getD j 0 := by
  split_ifs with hc
  · exact getD_pySet_ne v i x j h0 hne
  · rfl

/-- The flag writes (indices 38-41) do not touch other slots. -/
lemma getD_setEventFlags (v : List ℚ) (s : ScanState) (events : List ℤ) (j : ℕ)
    (h : j < 38 ∨ 42 ≤ j) :
    (setEventFlags v s events).getD j 0 = v.getD j 0 := by
  have h36 : note_range = (36 : ℤ) := by decide
  rw [setEventFlags, h36]
  have g2 : ((36 : ℤ) + 2).toNat ≠ j := by omega
  have g3 : ((36 : ℤ) + 3).toNat ≠ j := by omega
  have g4 : ((36 : ℤ) + 4).toNat ≠ j := by omega
  have g5 : ((36 : ℤ) + 5).toNat ≠ j := by omega
  rw [getD_ite_pySet _ _ _ _ _ (by omega) g5]
  rw [getD_ite_pySet _ _ _ _ _ (by omega) g4]
  cases s.is_ascending with
  | none => rw [getD_ite_pySet _ _ _ _ _ (by omega) g2]
  | some b =>
    cases b with
    | true =>
      show (pySet (if s.is_attack = true then pySet v (36 + 2) 1 else v)
        (36 + 3) 1).getD j 0 = v.getD j 0
      rw [getD_pySet_ne _ _ _ _ (by omega) g3]
      rw [getD_ite_pySet _ _ _ _ _ (by omega) g2]
    | false =>
      show (pySet (if s.is_attack = true then pySet v (36 + 2) 1 else v)
        (36 + 3) (-1)).getD j 0 = v.getD j 0
      rw [getD_pySet_ne _ _ _ _ (by omega) g3]
      rw [getD_ite_pySet _ _ _ _ _ (by omega) g2]

/-- The binary time counters (indices 42-48) do not touch other slots. -/
lemma getD_writeCounters (v : List ℚ) (n : ℕ) (j : ℕ) (h : j < 42 ∨ 49 ≤ j) :
    (writeCounters v n).getD j 0 = v.getD j 0 := by
  have h36 : note_range = (36 : ℤ) := by decide
  have haux : ∀ (l : List ℕ), (∀ i ∈ l, i < 7) → ∀ (w : List ℚ),
      (l.foldl (fun (acc : List ℚ) (i : ℕ) => pySet acc (note_range + 6 + (i : ℤ))
        (if (n / Nat.pow 2 i) % 2 ≠ 0 then (1 : ℚ) else -1)) w).getD j 0 =
      w.getD j 0 := by
    intro l
    induction l with
    | nil => intro _ w; rfl
    | cons a t ih =>
      intro hb w
      have ha : a < 7 := hb a (List.mem_cons_self a t)
      rw [List.foldl_cons]
      rw [ih (fun i hi => hb i (List.mem_cons_of_mem a hi))]
      exact getD_pySet_ne _ _ _ _ (by rw [h36]; omega) (by rw [h36]; omega)
  rw [writeCounters]
  exact haux (List.range 7) (fun i hi => List.mem_range.mp hi) v

/-- The key-indicator writes only touch indices at or above their offset. -/
lemma getD_writeKeys_lt (v : List ℚ) (off : ℤ) (hist : List ℚ) (j : ℕ)
    (_h0 : 0 ≤ off) (hj : (j : ℤ) < off) :
    (writeKeys v off hist).getD j 0 = v.getD j 0 := by
  simp only [writeKeys]
  generalize pyMax hist = mv
  generalize hist.enum = l
  induction l generalizing v with
  | nil => rfl
  | cons a t ih =>
    rw [List.foldl_cons]
    by_cases hc : a.2 = mv
    · rw [if_pos hc, ih]
      exact getD_pySet_ne _ _ _ _ (by omega) (by omega)
    · rw [if_neg hc]
      exact ih v

/-- The key-indicator writes only write the value 1, so a slot already
holding 1 still holds 1 afterwards. -/
lemma getD_writeKeys_one (v : List ℚ) (off : ℤ) (hist : List ℚ) (j : ℕ)
    (h0 : 0 ≤ off) (h1 : v.getD j 0 = 1) :
    (writeKeys v off hist).getD j 0 = 1 := by
  simp only [writeKeys]
  generalize pyMax hist = mv
  generalize hist.enum = l
  induction l generalizing v with
  | nil => exact h1
  | cons a t ih =>
    rw [List.foldl_cons]
    by_cases hc : a.2 = mv
    · refine ih _ ?_
      rw [if_pos hc]
      by_cases hij : (off + (a.1 : ℤ)).toNat = j
      · rw [← hij]
        refine getD_pySet_self _ _ _ (by omega) ?_
        have hlen : j < v.length := by
          by_contra hge
          rw [List.getD_eq_default v 0 (by omega)] at h1
          norm_num at h1
        omega
      · rw [getD_pySet_ne _ _ _ _ (by omega) hij]
        exact h1
    · rw [if_neg hc]
      exact ih v h1

/-- Below index 38, the final input vector agrees with the pitch-slot stage. -/
lemma melody_to_input_getD_low (m : MonophonicMelody) (j : ℕ) (hj : j < 38) :
    (melody_to_input m).1.getD j 0 =
      (setPitchSlots (List.replicate input_size.toNat 0)
        (scan m.events).current_note).getD j 0 := by
  simp only [melody_to_input]
  rw [getD_writeKeys_lt _ _ _ _ (by decide)
    (by rw [show note_range + 14 + NOTES_PER_OCTAVE = (62 : ℤ) from by decide]; omega)]
  rw [getD_writeKeys_lt _ _ _ _ (by decide)
    (by rw [show note_range + 14 = (50 : ℤ) from by decide]; omega)]
  rw [getD_ite_pySet _ _ _ _ _ (by decide)
    (by rw [show note_range + 13 = (49 : ℤ) from by decide]; omega)]
  rw [getD_writeCounters _ _ _ (Or.inl (by omega))]
  rw [getD_setEventFlags _ _ _ _ (Or.inl hj)]

/-- At or above index 50, a 1 written by the pitch-slot stage survives to the
final input vector. -/
lemma melody_to_input_getD_one_high (m : MonophonicMelody) (j : ℕ) (hj : 50 ≤ j)
    (h1 : (setPitchSlots (List.replicate input_size.toNat 0)
      (scan m.events).current_note).getD j 0 = 1) :
    (melody_to_input m).1.getD j 0 = 1 := by
  simp only [melody_to_input]
  apply getD_writeKeys_one _ _ _ _ (by decide)
  apply getD_writeKeys_one _ _ _ _ (by decide)
  rw [getD_ite_pySet _ _ _ _ _ (by decide)
    (by rw [show note_range + 13 = (49 : ℤ) from by decide]; omega)]
  rw [getD_writeCounters _ _ _ (Or.inr (by omega))]
  rw [getD_setEventFlags _ _ _ _ (Or.inr (by omega))]
  exact h1

/-! ### Claim C10 -/

/-- Claim C10 (corrected claim): encode treats an active pitch 0 as silence
(the silence slot is set and the pitch region stays all-zero); a nonzero
active pitch p writes 1.0 at Python index p − min_note, which names a pitch
slot exactly when min_note ≤ p < max_note; for a nonzero pitch below
min_note no error is raised: the negative index wraps to physical position
input_size + (p − min_note) = p + 26, which is a key-indicator slot
(index ≥ note_range + 14) exactly when p ≥ 24 — for smaller p the stray 1.0
lands among the pitch or feature-flag slots instead. -/
theorem c10_pitch_write_amended (m : MonophonicMelody) (p : ℤ)
    (hp : (scan m.events).current_note = some p) :
    (p = 0 → (melody_to_input m).1.getD 37 0 = 1 ∧
      ∀ j : ℕ, j < 36 → (melody_to_input m).1.getD j 0 = 0) ∧
    (MIN_NOTE ≤ p → p < MAX_NOTE →
      (melody_to_input m).1.getD (p - MIN_NOTE).toNat 0 = 1) ∧
    (0 < p → p < MIN_NOTE →
      input_size + (p - MIN_NOTE) = p + 26 ∧
      (note_range + 14 ≤ p + 26 ↔ 24 ≤ p) ∧
      (24 ≤ p → (melody_to_input m).1.getD (p + 26).toNat 0 = 1)) := by
  have h74 : (List.replicate input_size.toNat (0 : ℚ)).length = 74 := by decide
  have h36 : note_range = (36 : ℤ) := by decide
  refine ⟨fun hp0 => ?_, fun hlo hhi => ?_, fun hpos hlt => ?_⟩
  · subst hp0
    constructor
    · rw [melody_to_input_getD_low m 37 (by omega)]
      simp only [setPitchSlots, hp]
      rw [if_neg (by omega)]
      have h37 : (note_range + (1 : ℤ)).toNat = 37 := by decide
      rw [← h37]
      exact getD_pySet_self _ _ _ (by decide) (by decide)
    · intro j hj
      rw [melody_to_input_getD_low m j (by omega)]
      simp only [setPitchSlots, hp]
      rw [if_neg (by omega)]
      rw [getD_pySet_ne _ _ _ _ (by decide) (by rw [h36]; omega)]
      simp only [List.getD_eq_getElem?_getD, List.getElem?_replicate]
      split_ifs with hcond
      · rfl
      · rw [show input_size = (74 : ℤ) from by decide] at hcond
        omega
  · rw [MIN_NOTE] at hlo
    rw [MAX_NOTE] at hhi
    rw [melody_to_input_getD_low m _ (by rw [MIN_NOTE]; omega)]
    simp only [setPitchSlots, hp]
    rw [if_pos (by omega)]
    rw [getD_pySet_ne _ _ _ _ (by decide) (by rw [h36, MIN_NOTE]; omega)]
    exact getD_pySet_self _ _ _ (by rw [MIN_NOTE]; omega)
      (by rw [h74, MIN_NOTE]; omega)
  · rw [MIN_NOTE] at hlt
    have h26 : input_size + (p - MIN_NOTE) = p + 26 := by
      rw [input_size, NUM_SPECIAL_INPUTS, NOTES_PER_OCTAVE, note_range,
        MAX_NOTE, MIN_NOTE]
      ring
    refine ⟨h26, by rw [h36]; omega, fun h24 => ?_⟩
    apply melody_to_input_getD_one_high m _ (by omega)
    simp only [setPitchSlots, hp]
    rw [if_pos (by omega)]
    rw [getD_pySet_ne _ _ _ _ (by decide) (by rw [h36]; omega)]
    rw [pySet_neg _ _ _ (by rw [MIN_NOTE]; omega)]
    have hidx : (((List.replicate input_size.toNat (0 : ℚ)).length : ℤ) +
        (p - MIN_NOTE)).toNat = (p + 26).toNat := by
      rw [h74, MIN_NOTE]
      omega
    rw [hidx]
    have hrange : (p + 26).toNat < (List.replicate input_size.toNat (0 : ℚ)).length := by
      rw [h74]
      omega
    rw [List.getD_eq_getElem?_getD, List.getElem?_set_eq_of_lt (1 : ℚ) hrange]
    rfl

/-- Witness for C10: in the melody [30] the active pitch 30 is nonzero and
below min_note; the write wraps to physical index 30 + 26 = 56, a
key-indicator slot, and the final vector holds 1.0 there. -/
theorem c10_witness :
    (melody_to_input ⟨[30]⟩).1.getD ((30 : ℤ) + 26).toNat 0 = 1 := by
  have h := (c10_pitch_write_amended ⟨[30]⟩ 30 (by decide)).2.2
    (by decide) (by decide)
  exact h.2.2 (by decide)

set_option maxRecDepth 8000 in
/-- Counterexample to C10 as stated: in the melody [1] the active pitch 1 is
nonzero and below min_note; the wrapped write lands at physical index
74 + (1 − 48) = 27, which is inside the pitch one-hot region (it asserts
pitch 75 is sounding), not in the key-indicator tail (indices ≥ 50). -/
theorem c10_claim_counterexample :
    (melody_to_input ⟨[1]⟩).1.getD 27 0 = 1 ∧
    input_size + ((1 : ℤ) - MIN_NOTE) = 27 ∧
    ¬(note_range + 14 ≤ (27 : ℤ)) := by
  refine ⟨by decide, by decide, by decide⟩
